import Mathlib

/-!
Verification of the core logic of the BillSplit repository ( `src/logic.py` ).

The two core functions are `safe_decimal_eval` and `calculate_split_bill`.
Both operate on Python `Decimal` values under the default decimal context:
28 significant digits of precision with round-half-even.  A finite `Decimal`
denotes an exact rational number, and every arithmetic operation ( `+`, `*`,
`/` ) computes the exact rational result and then rounds it to 28 significant
decimal digits.  Equality and order on `Decimal` are by numeric value.  We
therefore embed `Decimal` values as rationals ( `ℚ` ) and each context
operation as "exact rational operation followed by rounding to 28 significant
decimal digits, ties to even" ( `ctxRound` ).  The rounding of a result
depends only on its numeric value, so this value-level embedding is faithful.

`safe_decimal_eval` evaluates its input with Python's `eval` (with empty
builtins) and converts the result with `Decimal(...)`; on the arithmetic
fragment (integer and decimal literals, `+`, `-`, `*`, `/`, unary minus,
parentheses) `eval` computes with Python `int` (exact) and `float`
(IEEE-754 binary64) semantics.  We embed binary64 values as rationals with
`floatRound` (round to 53 significant binary digits, ties to even; overflow
and subnormal underflow are outside the range exercised here) and embed the
lexer/parser for the arithmetic fragment directly; strings outside this
fragment are mapped to a parse failure, which matches `eval` raising
`SyntaxError` for them (e.g. `"import os"`), except for the non-arithmetic
expressions that CPython's full grammar accepts, such as attribute access
and method calls — those are deliberately not modelled (see claim C4).
-/

namespace BillSplit

attribute [local semireducible] Rat.mul Rat.inv Rat.add Rat.sub Rat.ofScientific

/-- Fuel-driven base-`b` logarithm on naturals: `natLogAux b fuel n` is the
number of times `n` can be divided by `b` before dropping below `b`, provided
`fuel` bounds the iteration count.  (A structurally recursive replacement for
`Nat.log`, so that proofs can evaluate it inside `decide`.) -/
def natLogAux (b : ℕ) : ℕ → ℕ → ℕ
  | 0, _ => 0
  | fuel + 1, n => if n < b ∨ b ≤ 1 then 0 else natLogAux b fuel (n / b) + 1

/-- Base-`b` logarithm (floor), executable by kernel reduction. -/
def natLog (b n : ℕ) : ℕ := natLogAux b n n

/-- `b ^ s` in `ℚ` for an integer exponent `s`. -/
def qpow (b : ℕ) (s : ℤ) : ℚ :=
  if 0 ≤ s then ((b : ℚ) ^ s.toNat) else ((b : ℚ) ^ (-s).toNat)⁻¹

/-- Floor of the base-`b` logarithm of a positive rational `q`:
the unique `e` with `b ^ e ≤ q < b ^ (e + 1)`. -/
def floorLogQ (b : ℕ) (q : ℚ) : ℤ :=
  let a := q.num.natAbs
  let d := q.den
  let e : ℤ := (natLog b a : ℤ) - (natLog b d : ℤ)
  if d * b ^ e.toNat ≤ a * b ^ (-e).toNat then e else e - 1

/-- Round a non-negative rational to an integer, ties to even
(the IEEE / GDA "half even" rule used by both `Decimal` and `float`). -/
def roundHalfEvenInt (x : ℚ) : ℤ :=
  let f := x.floor
  let r := x - (f : ℚ)
  if r < 1 / 2 then f
  else if 1 / 2 < r then f + 1
  else if f % 2 = 0 then f else f + 1

/-- Round `q` to `prec` significant base-`b` digits, ties to even.  This is
the value-level content of rounding in the General Decimal Arithmetic
specification (for `b = 10`) and of IEEE-754 round-to-nearest-even
(for `b = 2`, ignoring exponent-range limits). -/
def roundSig (b prec : ℕ) (q : ℚ) : ℚ :=
  if q = 0 then 0
  else
    let e := floorLogQ b |q|
    let s : ℤ := (prec : ℤ) - 1 - e
    let m := roundHalfEvenInt (|q| * qpow b s)
    (if q < 0 then -1 else 1) * (m : ℚ) * qpow b (-s)

/-- Rounding performed by every Python `Decimal` context operation under the
default context: 28 significant decimal digits, ties to even. -/
def ctxRound : ℚ → ℚ := roundSig 10 28

/-- Rounding to IEEE-754 binary64: 53 significant binary digits, ties to
even (finite range; overflow/underflow are outside the inputs used here). -/
def floatRound : ℚ → ℚ := roundSig 2 53

/-- Python `Decimal.__add__` under the default context: exact sum, rounded. -/
def dadd (a b : ℚ) : ℚ := ctxRound (a + b)

/-- Python `Decimal.__mul__` under the default context: exact product,
rounded. -/
def dmul (a b : ℚ) : ℚ := ctxRound (a * b)

/-- Python `Decimal.__truediv__` under the default context, for a nonzero
divisor: the exact quotient rounded to 28 significant digits. -/
def ddiv (a b : ℚ) : ℚ := ctxRound (a / b)

/-- Python `Decimal` division including its failure case: dividing by zero
raises `DivisionByZero`, embedded as `none`. -/
def ddivOpt (a b : ℚ) : Option ℚ :=
  if b = 0 then none else some (ddiv a b)

/-- Output record of `calculate_split_bill` (the dictionary built at
`src/logic.py:58` and `src/logic.py:73`): keys `subtotal`, `grand_total`,
`final_amounts`, `is_equal_split`. -/
structure SplitResult where
  subtotal : ℚ
  grand_total : ℚ
  final_amounts : List (String × ℚ)
  is_equal_split : Bool
deriving DecidableEq, Repr

/-- Result of `calculate_split_bill`: either the empty dictionary `{}`
("nothing to calculate", `src/logic.py:65` ) or a filled `SplitResult`. -/
inductive CalcResult where
  | empty : CalcResult
  | result : SplitResult → CalcResult
deriving DecidableEq, Repr

/-- The running decimal subtotal: `sum(amounts)` at `src/logic.py:51`.
Python's `sum` starts from the int `0` and folds `Decimal` addition (each
partial sum rounded by the context) from the left. -/
def totalOf (person_amounts : List (String × ℚ)) : ℚ :=
  (person_amounts.map Prod.snd).foldl dadd 0

/-- `calculate_split_bill` ( `src/logic.py:37-78` ).  `none` embeds an
uncaught exception (the only candidates are the two divisions); `some`
embeds normal return.

```python
amounts = [amount for _, amount in person_amounts]
total = sum(amounts)
if total == 0:
    if other_charges > 0 and person_amounts:
        num_people = len(person_amounts)
        split_other_charges = other_charges / num_people
        final_amounts = [(name, split_other_charges) for name, _ in person_amounts]
        return {"subtotal": Decimal(0), "grand_total": other_charges,
                "final_amounts": final_amounts, "is_equal_split": True}
    else:
        return {}
weights = [x / total for x in amounts]
final_amounts = []
for i, (name, amount) in enumerate(person_amounts):
    final_amount = amount + other_charges * weights[i]
    final_amounts.append((name, final_amount))
return {"subtotal": total, "grand_total": total + other_charges,
        "final_amounts": final_amounts, "is_equal_split": False}
```
-/
def calculate_split_bill (person_amounts : List (String × ℚ))
    (other_charges : ℚ) : Option CalcResult :=
  let amounts := person_amounts.map Prod.snd
  let total := amounts.foldl dadd 0
  if total = 0 then
    if 0 < other_charges ∧ person_amounts ≠ [] then
      match ddivOpt other_charges (person_amounts.length : ℚ) with
      | none => none
      | some split_other_charges =>
          some (.result ⟨0, other_charges,
            person_amounts.map (fun p => (p.1, split_other_charges)), true⟩)
    else
      some .empty
  else
    match amounts.mapM (fun x => ddivOpt x total) with
    | none => none
    | some weights =>
        some (.result ⟨total, dadd total other_charges,
          List.zipWith (fun p w => (p.1, dadd p.2 (dmul other_charges w)))
            person_amounts weights, false⟩)

/-! ### The expression evaluator `safe_decimal_eval` ( `src/logic.py:14-25` )

The source is

```python
if not expression:
    return Decimal(0)
try:
    return Decimal(eval(expression, {"__builtins__": None}, {}))
except Exception:
    raise CalculationError(f"Invalid expression: {expression}")
```

`eval` applies Python's own numeric semantics: an expression over integer
literals uses exact `int` arithmetic, while decimal-point literals and every
division produce binary64 `float` values (`15/2` is float division even on
ints, correctly rounded).  `Decimal(int)` and `Decimal(float)` are exact
conversions of the final value.  We embed the arithmetic fragment of this
behaviour: values ( `PyVal` ), expressions ( `PyExpr` ), Python's
lexer/precedence for `+ - * /`, unary minus, parentheses and numeric
literals, with division by zero as the failure case.  Strings outside this
fragment lex or parse to `none`, as `eval` raises `SyntaxError` on them;
the non-arithmetic expressions CPython additionally accepts (attribute
access, method calls — the known sandbox escape, see claim C4) are not
modelled. -/

/-- A value produced by `eval` on the arithmetic fragment: a Python `int`
(exact) or a Python `float` (binary64, embedded as its exact rational
value). -/
inductive PyVal where
  | i : ℤ → PyVal
  | f : ℚ → PyVal
deriving DecidableEq, Repr

/-- Conversion of an `int` operand to `float` when the other operand is a
`float` (rounds to 53 significant bits; exact for the small integers that
occur here). -/
def PyVal.toF : PyVal → ℚ
  | .i z => floatRound z
  | .f q => q

/-- `Decimal(v)` for an `int` or `float` `v`: both conversions are exact. -/
def decimalOfPyVal : PyVal → ℚ
  | .i z => z
  | .f q => q

/-- The arithmetic fragment of Python expressions reachable from
`safe_decimal_eval`'s untrusted string.  A `floatLit` carries the binary64
value of the literal (rounded at lexing time, as CPython does). -/
inductive PyExpr where
  | intLit : ℕ → PyExpr
  | floatLit : ℚ → PyExpr
  | neg : PyExpr → PyExpr
  | add : PyExpr → PyExpr → PyExpr
  | sub : PyExpr → PyExpr → PyExpr
  | mul : PyExpr → PyExpr → PyExpr
  | div : PyExpr → PyExpr → PyExpr
deriving DecidableEq, Repr

/-- Python `+` : exact on two ints, IEEE binary64 otherwise. -/
def pyAdd : PyVal → PyVal → PyVal
  | .i a, .i b => .i (a + b)
  | a, b => .f (floatRound (a.toF + b.toF))

/-- Python `-` : exact on two ints, IEEE binary64 otherwise. -/
def pySub : PyVal → PyVal → PyVal
  | .i a, .i b => .i (a - b)
  | a, b => .f (floatRound (a.toF - b.toF))

/-- Python `*` : exact on two ints, IEEE binary64 otherwise. -/
def pyMul : PyVal → PyVal → PyVal
  | .i a, .i b => .i (a * b)
  | a, b => .f (floatRound (a.toF * b.toF))

/-- Python `/` : true division, always a `float`.  `int / int` is the
correctly rounded exact quotient (CPython computes it without an
intermediate conversion); division by zero raises `ZeroDivisionError`,
embedded as `none`. -/
def pyDiv (a b : PyVal) : Option PyVal :=
  match a, b with
  | .i x, .i y => if y = 0 then none else some (.f (floatRound ((x : ℚ) / (y : ℚ))))
  | _, _ => if b.toF = 0 then none else some (.f (floatRound (a.toF / b.toF)))

/-- Python unary minus: exact on both `int` and `float`. -/
def pyNeg : PyVal → PyVal
  | .i z => .i (-z)
  | .f q => .f (-q)

/-- Evaluation of the arithmetic fragment, with `none` embedding a raised
exception (only `ZeroDivisionError` can occur on this fragment). -/
def pyEvalExpr : PyExpr → Option PyVal
  | .intLit n => some (.i n)
  | .floatLit q => some (.f q)
  | .neg e => (pyEvalExpr e).map pyNeg
  | .add a b => do pure (pyAdd (← pyEvalExpr a) (← pyEvalExpr b))
  | .sub a b => do pure (pySub (← pyEvalExpr a) (← pyEvalExpr b))
  | .mul a b => do pure (pyMul (← pyEvalExpr a) (← pyEvalExpr b))
  | .div a b => do pyDiv (← pyEvalExpr a) (← pyEvalExpr b)

/-- Tokens of the arithmetic fragment of Python's grammar. -/
inductive Tok where
  | int : ℕ → Tok
  | flt : ℚ → Tok
  | plus | minus | star | slash | lparen | rparen : Tok
deriving DecidableEq, Repr

/-- Value of a digit string. -/
def digitsToNat (ds : List Char) : ℕ :=
  ds.foldl (fun acc c => 10 * acc + (c.toNat - '0'.toNat)) 0

/-- Lex one numeric literal: `digits`, `digits.digits`, `digits.` or
`.digits`.  A literal with a decimal point becomes a `float` (rounded to
binary64, as CPython's literal conversion does); otherwise an `int`. -/
def lexNum (cs : List Char) : Option (Tok × List Char) :=
  let (ds, rest) := cs.span (·.isDigit)
  match rest with
  | '.' :: rest2 =>
      let (fs, rest3) := rest2.span (·.isDigit)
      if ds.isEmpty ∧ fs.isEmpty then none
      else some (.flt (floatRound ((digitsToNat ds : ℚ)
        + (digitsToNat fs : ℚ) / (10 : ℚ) ^ fs.length)), rest3)
  | _ => if ds.isEmpty then none else some (.int (digitsToNat ds), rest)

/-- Fuel-driven lexer for the arithmetic fragment; any character outside
the fragment makes the whole string fail to lex (CPython: `SyntaxError`
or `NameError`, both caught by the `except` at `src/logic.py:24` ). -/
def lexAux : ℕ → List Char → Option (List Tok)
  | 0, _ => none
  | _, [] => some []
  | fuel + 1, c :: cs =>
    if c = ' ' then lexAux fuel cs
    else if c = '+' then (lexAux fuel cs).map (Tok.plus :: ·)
    else if c = '-' then (lexAux fuel cs).map (Tok.minus :: ·)
    else if c = '*' then (lexAux fuel cs).map (Tok.star :: ·)
    else if c = '/' then (lexAux fuel cs).map (Tok.slash :: ·)
    else if c = '(' then (lexAux fuel cs).map (Tok.lparen :: ·)
    else if c = ')' then (lexAux fuel cs).map (Tok.rparen :: ·)
    else if c.isDigit ∨ c = '.' then
      match lexNum (c :: cs) with
      | some (t, rest) => (lexAux fuel rest).map (t :: ·)
      | none => none
    else none

/-- Lex a whole input string. -/
def tokenize (s : String) : Option (List Tok) :=
  lexAux (s.length + 1) s.data

/-- Nonterminals of Python's expression grammar restricted to the
arithmetic fragment, with the accumulator of the left-associative tails:
`expr := term (("+"|"-") term)*`, `term := factor (("*"|"/") factor)*`,
`factor := "-" factor | literal | "(" expr ")"`. -/
inductive PState where
  | expr | term | factor : PState
  | exprTail : PyExpr → PState
  | termTail : PyExpr → PState

/-- Fuel-driven recursive-descent parse of the arithmetic fragment with
Python's precedence and left associativity. -/
def parseL : ℕ → PState → List Tok → Option (PyExpr × List Tok)
  | 0, _, _ => none
  | fuel + 1, .expr, ts =>
      (parseL fuel .term ts).bind fun p => parseL fuel (.exprTail p.1) p.2
  | fuel + 1, .exprTail a, .plus :: ts =>
      (parseL fuel .term ts).bind fun p => parseL fuel (.exprTail (.add a p.1)) p.2
  | fuel + 1, .exprTail a, .minus :: ts =>
      (parseL fuel .term ts).bind fun p => parseL fuel (.exprTail (.sub a p.1)) p.2
  | _ + 1, .exprTail a, ts => some (a, ts)
  | fuel + 1, .term, ts =>
      (parseL fuel .factor ts).bind fun p => parseL fuel (.termTail p.1) p.2
  | fuel + 1, .termTail a, .star :: ts =>
      (parseL fuel .factor ts).bind fun p => parseL fuel (.termTail (.mul a p.1)) p.2
  | fuel + 1, .termTail a, .slash :: ts =>
      (parseL fuel .factor ts).bind fun p => parseL fuel (.termTail (.div a p.1)) p.2
  | _ + 1, .termTail a, ts => some (a, ts)
  | fuel + 1, .factor, .minus :: ts =>
      (parseL fuel .factor ts).map fun p => (PyExpr.neg p.1, p.2)
  | _ + 1, .factor, .int n :: ts => some (.intLit n, ts)
  | _ + 1, .factor, .flt q :: ts => some (.floatLit q, ts)
  | fuel + 1, .factor, .lparen :: ts =>
      (parseL fuel .expr ts).bind fun p =>
        match p.2 with
        | .rparen :: ts2 => some (p.1, ts2)
        | _ => none
  | _ + 1, .factor, _ => none

/-- Parse a complete token list (as `eval` in expression mode: the whole
string must be a single expression). -/
def parseToks (ts : List Tok) : Option PyExpr :=
  match parseL (4 * ts.length + 8) .expr ts with
  | some (e, []) => some e
  | _ => none

/-- `CalculationError` ( `src/logic.py:8-11` ), raised as
`CalculationError(f"Invalid expression: {expression}")` — it carries the
offending string. -/
inductive CalculationError where
  | invalidExpression : String → CalculationError
deriving DecidableEq, Repr

/-- `safe_decimal_eval` ( `src/logic.py:14-25` ): empty input returns
`Decimal(0)`; otherwise evaluate with Python semantics and convert the
result to `Decimal`, turning every failure into `CalculationError` with
the offending string. -/
def safe_decimal_eval (expression : String) : Except CalculationError ℚ :=
  if expression = "" then .ok 0
  else
    match ((tokenize expression).bind parseToks).bind pyEvalExpr with
    | some v => .ok (decimalOfPyVal v)
    | none => .error (.invalidExpression expression)

/-! ### Branch normal forms of `calculate_split_bill` -/

/-- The weight comprehension `[x / total for x in amounts]`
( `src/logic.py:67` ) raises nothing when `total` is nonzero, and yields the
context-division of each amount by `total`. -/
theorem mapM_ddivOpt (T : ℚ) (hT : T ≠ 0) (l : List ℚ) :
    l.mapM (fun x => ddivOpt x T) = some (l.map (fun x => ddiv x T)) := by
  induction l with
  | nil => rfl
  | cons x xs ih => rw [List.mapM_cons, ih]; simp [ddivOpt, hT]

/-- Pairing each person with the weight computed from their own amount
collapses the `zipWith` of the loop at `src/logic.py:69-71` into a single
`map` over the input list. -/
theorem zipWith_weights (c T : ℚ) (ps : List (String × ℚ)) :
    List.zipWith (fun p w => (p.1, dadd p.2 (dmul c w))) ps
      (ps.map (fun p => ddiv p.2 T))
    = ps.map (fun p => (p.1, dadd p.2 (dmul c (ddiv p.2 T)))) := by
  induction ps with
  | nil => rfl
  | cons p ps ih => simp [ih]

/-- Normal form of the proportional branch ( `src/logic.py:67-78` ): when the
subtotal is nonzero the function returns normally, with each person charged
`amount + other_charges * (amount / total)` in context arithmetic. -/
theorem calc_split_bill_pos (ps : List (String × ℚ)) (c : ℚ)
    (h : totalOf ps ≠ 0) :
    calculate_split_bill ps c
      = some (.result ⟨totalOf ps, dadd (totalOf ps) c,
          ps.map (fun p => (p.1, dadd p.2 (dmul c (ddiv p.2 (totalOf ps))))), false⟩) := by
  have htot : (ps.map Prod.snd).foldl dadd 0 = totalOf ps := rfl
  have hmm := mapM_ddivOpt (totalOf ps) h (ps.map Prod.snd)
  rw [List.map_map] at hmm
  simp only [calculate_split_bill, htot, if_neg h, hmm]
  rw [show ((fun x => ddiv x (totalOf ps)) ∘ Prod.snd)
      = (fun p : String × ℚ => ddiv p.2 (totalOf ps)) from rfl, zipWith_weights]

/-- Normal form of the equal-split branch ( `src/logic.py:53-63` ): zero
subtotal, positive charges and a non-empty list give every person the share
`other_charges / len(person_amounts)`. -/
theorem calc_split_bill_equal (ps : List (String × ℚ)) (c : ℚ)
    (h0 : totalOf ps = 0) (hne : ps ≠ []) (hc : 0 < c) :
    calculate_split_bill ps c
      = some (.result ⟨0, c, ps.map (fun p => (p.1, ddiv c (ps.length : ℚ))), true⟩) := by
  have hlen : ((ps.length : ℚ)) ≠ 0 := by simpa using hne
  have h0' : (ps.map Prod.snd).foldl dadd 0 = 0 := h0
  simp only [calculate_split_bill, h0', if_pos, if_true, ddivOpt, hlen, if_neg hlen]
  rw [if_pos ⟨hc, hne⟩]; simp

/-- Normal form of the `return {}` branch ( `src/logic.py:64-65` ). -/
theorem calc_split_bill_empty (ps : List (String × ℚ)) (c : ℚ)
    (h0 : totalOf ps = 0) (h2 : ¬(0 < c ∧ ps ≠ [])) :
    calculate_split_bill ps c = some .empty := by
  have h0' : (ps.map Prod.snd).foldl dadd 0 = 0 := h0
  simp only [calculate_split_bill, h0', if_true, if_neg h2]

/-- Indexing into a mapped list. -/
theorem get_map_of_lt {α β : Type _} (f : α → β) :
    ∀ (l : List α) (i : ℕ) (hi : i < (l.map f).length) (hj : i < l.length),
      (l.map f).get ⟨i, hi⟩ = f (l.get ⟨i, hj⟩)
  | [], i, _, hj => (Nat.not_lt_zero i hj).elim
  | _ :: _, 0, _, _ => rfl
  | _ :: l, i + 1, hi, hj =>
      get_map_of_lt f l i (Nat.lt_of_succ_lt_succ hi) (Nat.lt_of_succ_lt_succ hj)

/-- Exact-rational algebra of the proportional formula: summing
`a + c * (a / T)` over a list distributes into the sum of the amounts. -/
theorem sum_map_prop_split (c T : ℚ) (l : List (String × ℚ)) :
    (l.map (fun p => p.2 + c * (p.2 / T))).sum
      = (l.map Prod.snd).sum + c * ((l.map Prod.snd).sum / T) := by
  induction l with
  | nil => simp
  | cons p ps ih => simp [ih]; ring

/-- Length and positional names survive any `map` that preserves the first
component. -/
theorem length_and_names (ps : List (String × ℚ)) (f : String × ℚ → String × ℚ)
    (hf : ∀ p, (f p).1 = p.1) :
    (ps.map f).length = ps.length
    ∧ ∀ (i : ℕ) (hi : i < (ps.map f).length) (hj : i < ps.length),
        ((ps.map f).get ⟨i, hi⟩).1 = (ps.get ⟨i, hj⟩).1 := by
  refine ⟨List.length_map .., ?_⟩
  intro i hi hj
  rw [get_map_of_lt f ps i hi hj, hf]

/-! ### The claims -/

/-- Claim C1, counterexample.  The claim asserts that the exact sum of the
final amounts equals `subtotal + otherCharges` exactly, before any display
rounding.  This fails in the code's decimal arithmetic: with three people
of subtotal 1 each and `other_charges = 1`, each weight `1/3` rounds to 28
significant digits, each final amount is `1.333333333333333333333333333`,
and the three of them sum to `3.999999999999999999999999999`, not to the
grand total `4 = 3 + 1`. -/
theorem split_bill_sum_invariant_cex :
    calculate_split_bill [( "a", 1), ( "b", 1), ( "c", 1)] 1
      = some (.result ⟨3, 4,
          [( "a", (1333333333333333333333333333 : ℚ) / 10 ^ 27),
           ( "b", (1333333333333333333333333333 : ℚ) / 10 ^ 27),
           ( "c", (1333333333333333333333333333 : ℚ) / 10 ^ 27)], false⟩)
    ∧ ([( "a", (1333333333333333333333333333 : ℚ) / 10 ^ 27),
        ( "b", (1333333333333333333333333333 : ℚ) / 10 ^ 27),
        ( "c", (1333333333333333333333333333 : ℚ) / 10 ^ 27)].map Prod.snd).sum
        ≠ 3 + 1 := by
  constructor <;> decide

/-- Claim C1, amended.  For a non-empty list with positive subtotal and
`otherCharges ≥ 0`, the exact sum of the final amounts equals
`subtotal + otherCharges` (which is the grand total) provided the decimal
context never has to round during the computation: the folded subtotal is
the exact sum of the amounts, each person's context-computed final amount
equals the exact value `a + c * (a / total)`, and `total + c` is itself
representable.  Without these provisos the invariant only holds up to
context rounding error (see `split_bill_sum_invariant_cex`). -/
theorem split_bill_sum_invariant (ps : List (String × ℚ)) (c : ℚ)
    (hc : 0 ≤ c) (hpos : 0 < totalOf ps)
    (hfold : totalOf ps = (ps.map Prod.snd).sum)
    (hexact : ∀ p ∈ ps, dadd p.2 (dmul c (ddiv p.2 (totalOf ps)))
        = p.2 + c * (p.2 / totalOf ps))
    (hg : dadd (totalOf ps) c = totalOf ps + c) :
    calculate_split_bill ps c
      = some (.result ⟨totalOf ps, dadd (totalOf ps) c,
          ps.map (fun p => (p.1, dadd p.2 (dmul c (ddiv p.2 (totalOf ps))))), false⟩)
    ∧ ((ps.map (fun p => (p.1, dadd p.2 (dmul c (ddiv p.2 (totalOf ps)))))).map Prod.snd).sum
        = totalOf ps + c
    ∧ totalOf ps + c = dadd (totalOf ps) c := by
  have hne : totalOf ps ≠ 0 := ne_of_gt hpos
  refine ⟨calc_split_bill_pos ps c hne, ?_, hg.symm⟩
  rw [List.map_map]
  rw [show (Prod.snd ∘ fun p : String × ℚ => (p.1, dadd p.2 (dmul c (ddiv p.2 (totalOf ps)))))
      = (fun p : String × ℚ => dadd p.2 (dmul c (ddiv p.2 (totalOf ps)))) from rfl]
  rw [List.map_congr_left hexact, sum_map_prop_split c (totalOf ps) ps, ← hfold,
    div_self hne]
  ring

/-- Claim C1, witness: the spec's own example (Alice 10, Bob 30, charges 8)
rounds nowhere, so the sum of final amounts is exactly `subtotal + 8`. -/
theorem split_bill_sum_invariant_witness :
    ((([( "Alice", (10:ℚ)), ( "Bob", 30)].map
        (fun p => (p.1, dadd p.2 (dmul 8 (ddiv p.2
          (totalOf [( "Alice", (10:ℚ)), ( "Bob", 30)])))))).map Prod.snd).sum)
      = totalOf [( "Alice", (10:ℚ)), ( "Bob", 30)] + 8 :=
  (split_bill_sum_invariant [( "Alice", 10), ( "Bob", 30)] 8 (by decide) (by decide)
    (by decide) (by decide) (by decide)).2.1

/-- Claim C2: whenever the (decimal) subtotal is strictly positive the
result is the proportional split: `subtotal` is the decimal sum of the
per-person amounts, `grand_total` is `subtotal + otherCharges` (context
addition), `is_equal_split` is false, and position `i` of `final_amounts`
carries the name at position `i` of the input together with
`amount + otherCharges * (amount / subtotal)`, the weight computed by
context division at full 28-digit precision (never rounded early to display
precision).  In particular, Alice 10 / Bob 30 with charges 8 yields
subtotal 40, grand total 48 and final amounts Alice 12, Bob 36, in input
order. -/
theorem split_bill_proportional :
    (∀ (ps : List (String × ℚ)) (c : ℚ), 0 < totalOf ps →
      calculate_split_bill ps c
        = some (.result ⟨totalOf ps, dadd (totalOf ps) c,
            ps.map (fun p => (p.1, dadd p.2 (dmul c (ddiv p.2 (totalOf ps))))), false⟩))
    ∧ (∀ (ps : List (String × ℚ)) (c : ℚ) (r : SplitResult), 0 < totalOf ps →
        calculate_split_bill ps c = some (.result r) →
        ∀ (i : ℕ) (hi : i < r.final_amounts.length) (hj : i < ps.length),
          r.final_amounts.get ⟨i, hi⟩
            = ((ps.get ⟨i, hj⟩).1,
               dadd (ps.get ⟨i, hj⟩).2
                 (dmul c (ddiv (ps.get ⟨i, hj⟩).2 (totalOf ps)))))
    ∧ calculate_split_bill [( "Alice", 10), ( "Bob", 30)] 8
        = some (.result ⟨40, 48, [( "Alice", 12), ( "Bob", 36)], false⟩) := by
  refine ⟨fun ps c h => calc_split_bill_pos ps c (ne_of_gt h), ?_, by decide⟩
  intro ps c r hpos hr i hi hj
  rw [calc_split_bill_pos ps c (ne_of_gt hpos)] at hr
  injection hr with hr
  injection hr with hr
  subst hr
  exact get_map_of_lt _ ps i hi hj

/-- Claim C2, witness at a single person with subtotal 5 and no charges. -/
theorem split_bill_proportional_witness :
    calculate_split_bill [( "x", (5:ℚ))] 0
      = some (.result ⟨5, 5, [( "x", (5:ℚ))], false⟩) :=
  (split_bill_proportional.1 [( "x", 5)] 0 (by decide)).trans (by decide)

/-- Claim C3: zero subtotal (all-zero entries or cancelling entries),
positive charges and a non-empty list give the equal split: reported
subtotal 0, grand total `otherCharges`, `is_equal_split = true`, every
final amount is `otherCharges / count` (context division), names kept in
input order, and all final amounts are equal to each other. -/
theorem split_bill_equal_split (ps : List (String × ℚ)) (c : ℚ)
    (hne : ps ≠ []) (h0 : totalOf ps = 0) (hc : 0 < c) :
    calculate_split_bill ps c
      = some (.result ⟨0, c, ps.map (fun p => (p.1, ddiv c (ps.length : ℚ))), true⟩)
    ∧ ∀ x ∈ ps.map (fun p => (p.1, ddiv c (ps.length : ℚ))),
        ∀ y ∈ ps.map (fun p => (p.1, ddiv c (ps.length : ℚ))), x.2 = y.2 := by
  refine ⟨calc_split_bill_equal ps c h0 hne hc, ?_⟩
  intro x hx y hy
  obtain ⟨p, _, rfl⟩ := List.mem_map.mp hx
  obtain ⟨q, _, rfl⟩ := List.mem_map.mp hy
  rfl

/-- Claim C3, witness: a positive and a negative amount cancelling to zero
subtotal, with charges 7 split equally as 3.5 each. -/
theorem split_bill_equal_split_witness :
    calculate_split_bill [( "p", (5:ℚ)), ( "q", -5)] 7
      = some (.result ⟨0, 7, [( "p", (7:ℚ)/2), ( "q", (7:ℚ)/2)], true⟩) :=
  ((split_bill_equal_split [( "p", 5), ( "q", -5)] 7 (by decide) (by decide)
    (by decide)).1).trans (by decide)

/-- Claim C6: the `Empty` (`{}`) result is returned exactly in the "nothing
to calculate" cases: an empty people list (for every `otherCharges`), and a
non-empty list with zero subtotal when `otherCharges = 0`.  `Empty` is a
normal return ( `some .empty` ), not an exception ( `none` ). -/
theorem split_bill_empty_cases :
    (∀ c : ℚ, calculate_split_bill [] c = some .empty)
    ∧ (∀ (ps : List (String × ℚ)), ps ≠ [] → totalOf ps = 0 →
        calculate_split_bill ps 0 = some .empty) := by
  constructor
  · intro c
    exact calc_split_bill_empty [] c rfl (fun h => h.2 rfl)
  · intro ps _ h0
    exact calc_split_bill_empty ps 0 h0 (fun h => lt_irrefl 0 h.1)

/-- Claim C6, witness: empty list with positive charges, and a one-person
list with zero amount and zero charges. -/
theorem split_bill_empty_cases_witness :
    calculate_split_bill ([] : List (String × ℚ)) 5 = some .empty
    ∧ calculate_split_bill [( "z", (0:ℚ))] 0 = some .empty :=
  ⟨split_bill_empty_cases.1 5,
   split_bill_empty_cases.2 [( "z", 0)] (by decide) (by decide)⟩

/-- Claim C7: every non-`Empty` result has final amounts of the same length
as the input, with the name at each position equal to the input name at the
same position — in both the proportional and the equal-split branch. -/
theorem split_bill_order_preserved (ps : List (String × ℚ)) (c : ℚ)
    (r : SplitResult) (h : calculate_split_bill ps c = some (.result r)) :
    r.final_amounts.length = ps.length
    ∧ ∀ (i : ℕ) (hi : i < r.final_amounts.length) (hj : i < ps.length),
        (r.final_amounts.get ⟨i, hi⟩).1 = (ps.get ⟨i, hj⟩).1 := by
  by_cases h0 : totalOf ps = 0
  · by_cases h2 : 0 < c ∧ ps ≠ []
    · rw [calc_split_bill_equal ps c h0 h2.2 h2.1] at h
      injection h with h
      injection h with h
      subst h
      exact length_and_names ps _ (fun p => rfl)
    · rw [calc_split_bill_empty ps c h0 h2] at h
      injection h with h
      exact absurd h (by intro hh; cases hh)
  · rw [calc_split_bill_pos ps c h0] at h
    injection h with h
    injection h with h
    subst h
    exact length_and_names ps _ (fun p => rfl)

/-- Claim C7, witness at the proportional example. -/
theorem split_bill_order_preserved_witness :
    ((⟨40, 48, [( "Alice", (12:ℚ)), ( "Bob", 36)], false⟩ : SplitResult).final_amounts).length
      = [( "Alice", (10:ℚ)), ( "Bob", (30:ℚ))].length :=
  (split_bill_order_preserved [( "Alice", 10), ( "Bob", 30)] 8
    ⟨40, 48, [( "Alice", 12), ( "Bob", 36)], false⟩ (by decide)).1

/-- Claim C8: on every list of (name, decimal) pairs and every decimal
`other_charges`, the allocator terminates normally and raises no exception:
the two divisions ( `other_charges / num_people` and `x / total` ) are
reached only on branches where their divisor is nonzero, so the embedded
result is never `none`. -/
theorem split_bill_never_fails (ps : List (String × ℚ)) (c : ℚ) :
    (calculate_split_bill ps c).isSome = true := by
  by_cases h0 : totalOf ps = 0
  · by_cases h2 : 0 < c ∧ ps ≠ []
    · rw [calc_split_bill_equal ps c h0 h2.2 h2.1]; rfl
    · rw [calc_split_bill_empty ps c h0 h2]; rfl
  · rw [calc_split_bill_pos ps c h0]; rfl

/-- Claim C10: a negative `other_charges` with zero subtotal is silently
discarded: the equal-split branch requires `other_charges > 0`, so the
rebate case returns `Empty` rather than splitting the negative charge. -/
theorem split_bill_negative_rebate_empty (ps : List (String × ℚ)) (c : ℚ)
    (hne : ps ≠ []) (h0 : totalOf ps = 0) (hc : c < 0) :
    calculate_split_bill ps c = some .empty :=
  calc_split_bill_empty ps c h0 (fun h => lt_asymm hc h.1)

/-- Claim C10, witness: one person with amount 0 and charges −3. -/
theorem split_bill_negative_rebate_empty_witness :
    calculate_split_bill [( "n", (0:ℚ))] (-3) = some .empty :=
  split_bill_negative_rebate_empty [( "n", 0)] (-3) (by decide) (by decide)
    (by decide)

/-- Claim C9: empty (or missing — the widget yields the empty string)
input makes `safe_decimal_eval` return the decimal zero, not an error. -/
theorem safe_decimal_eval_empty_input : safe_decimal_eval "" = .ok 0 := rfl

/-- Claim C5, counterexample.  The claim asserts that the evaluator uses
exact decimal arithmetic throughout, so every valid arithmetic expression
returns its exact decimal result.  It does not: `eval` computes with
binary64 floats, so `"0.1+0.2"` returns the exact value of the float
`0.30000000000000004...` — namely `5404319552844596 / 2^54` — and not the
exact decimal result `3/10` (which 28-digit decimal arithmetic would give
exactly). -/
theorem safe_decimal_eval_not_exact_decimal_cex :
    safe_decimal_eval "0.1+0.2"
      = .ok ((5404319552844596 : ℚ) / 18014398509481984)
    ∧ ((5404319552844596 : ℚ) / 18014398509481984) ≠ 3 / 10 :=
  ⟨rfl, by decide⟩

/-- Claim C5, amended: the evaluator computes with Python's native numeric
semantics — exact `int` arithmetic, but binary64 floating point for
decimal-point literals and for every division — and converts only the
final value to `Decimal` exactly.  The spec's concrete examples hold
( `evaluate("15/2") == 7.5`, `evaluate("2+2*2") == 6` ), and a sum of
decimal literals is the rounded binary sum of their rounded binary values,
not their exact decimal sum. -/
theorem safe_decimal_eval_float_semantics :
    safe_decimal_eval "15/2" = .ok ((15 : ℚ) / 2)
    ∧ safe_decimal_eval "2+2*2" = .ok 6
    ∧ safe_decimal_eval "0.1+0.2"
        = .ok (floatRound (floatRound (1 / 10) + floatRound (2 / 10))) :=
  ⟨rfl, rfl, rfl⟩

end BillSplit
